import Mathlib

/-
Verification development for the admission-control, caching and quota
subsystem of the moral-compass-ai repository.

The TypeScript sources are shallowly embedded as Lean definitions:
JavaScript numbers that carry money or similarity scores become ℚ,
millisecond clocks become ℤ, the ISO date/hour/month strings compared
lexicographically in costTracking.ts become natural-number indices, and
the Redis backing store becomes an association list with per-key expiry
plus an explicit failure flag.  Math.sqrt is passed in as an explicit
function argument wherever cosineSimilarity needs it.
-/

namespace MoralCompass

/-! ## Cost tracking (src/lib/costTracking.ts) -/

/-- A point in time as seen by the cost ledger: absolute day, hour and month
indices.  Models the ISO-8601 date, hour-of-era and month strings produced in
costTracking.ts; lexicographic comparison of those strings is chronological
comparison of these indices. -/
structure Clock where
  day : ℕ
  hour : ℕ
  month : ℕ
deriving DecidableEq

/-- Per-client cost counters with their last-reset markers (the type
UserCostData in costTracking.ts).  Money in USD is modeled as ℚ. -/
structure UserCostData where
  daily : ℚ
  hourly : ℚ
  monthly : ℚ
  lastReset : Clock
deriving DecidableEq

/-- The three cost-window families that rejection reasons of checkCostLimits
name ("Daily cost limit exceeded", "Hourly ...", "Monthly ..."). -/
inductive CostFamily
  | daily
  | hourly
  | monthly
deriving DecidableEq

/-- The per-window cost limits (DAILY_COST_LIMIT, HOURLY_COST_LIMIT,
MONTHLY_COST_LIMIT environment values, with the COST_CONFIG defaults). -/
structure CostLimits where
  daily : ℚ
  hourly : ℚ
  monthly : ℚ
deriving DecidableEq

/-- Models resetExpiredCounters in costTracking.ts: each of the three window
counters is zeroed, and its last-reset marker advanced, exactly when the
current day/hour/month index is strictly greater than the recorded marker. -/
def resetExpiredCounters (now : Clock) (s : UserCostData) : UserCostData :=
  { daily := if now.day > s.lastReset.day then 0 else s.daily
    hourly := if now.hour > s.lastReset.hour then 0 else s.hourly
    monthly := if now.month > s.lastReset.month then 0 else s.monthly
    lastReset :=
      { day := if now.day > s.lastReset.day then now.day else s.lastReset.day
        hour := if now.hour > s.lastReset.hour then now.hour else s.lastReset.hour
        month := if now.month > s.lastReset.month then now.month else s.lastReset.month } }

/-- The currentUsage field of a CostLimitResult. -/
structure CostUsage where
  daily : ℚ
  hourly : ℚ
  monthly : ℚ
deriving DecidableEq

/-- Models the CostLimitResult interface of costTracking.ts.  The reason
string of the source names exactly one window family, modeled here by
an Option CostFamily. -/
structure CostLimitResult where
  allowed : Bool
  reason : Option CostFamily
  currentUsage : CostUsage
  limits : CostLimits
  estimatedCost : ℚ
deriving DecidableEq

/-- Models checkCostLimits in costTracking.ts: lazily reset the counters,
then test the projected totals in the source's order daily, hourly, monthly;
the first projected total strictly above its limit rejects, and the reason
names that family. -/
def checkCostLimits (L : CostLimits) (now : Clock) (s0 : UserCostData)
    (estimatedCost : ℚ) : CostLimitResult :=
  let costData := resetExpiredCounters now s0
  let projectedDaily := costData.daily + estimatedCost
  let projectedHourly := costData.hourly + estimatedCost
  let projectedMonthly := costData.monthly + estimatedCost
  let usage : CostUsage := ⟨costData.daily, costData.hourly, costData.monthly⟩
  if projectedDaily > L.daily then
    ⟨false, some .daily, usage, L, estimatedCost⟩
  else if projectedHourly > L.hourly then
    ⟨false, some .hourly, usage, L, estimatedCost⟩
  else if projectedMonthly > L.monthly then
    ⟨false, some .monthly, usage, L, estimatedCost⟩
  else
    ⟨true, none, usage, L, estimatedCost⟩

/-- Models the state change of recordCost in costTracking.ts (the commit of
an actual cost): lazily reset the counters, then add the actual amount to all
three counters, keeping the reset markers produced by the lazy reset. -/
def recordCostData (now : Clock) (s0 : UserCostData) (actualCost : ℚ) : UserCostData :=
  let s := resetExpiredCounters now s0
  { s with
    daily := s.daily + actualCost
    hourly := s.hourly + actualCost
    monthly := s.monthly + actualCost }

/-- Definition written from the wording of claim C4, not from the source:
the cost families checked in the order hourly, then daily, then monthly.
It exists only to be compared with checkCostLimits. -/
def claimedCostCheck (L : CostLimits) (now : Clock) (s0 : UserCostData)
    (estimatedCost : ℚ) : CostLimitResult :=
  let costData := resetExpiredCounters now s0
  let projectedDaily := costData.daily + estimatedCost
  let projectedHourly := costData.hourly + estimatedCost
  let projectedMonthly := costData.monthly + estimatedCost
  let usage : CostUsage := ⟨costData.daily, costData.hourly, costData.monthly⟩
  if projectedHourly > L.hourly then
    ⟨false, some .hourly, usage, L, estimatedCost⟩
  else if projectedDaily > L.daily then
    ⟨false, some .daily, usage, L, estimatedCost⟩
  else if projectedMonthly > L.monthly then
    ⟨false, some .monthly, usage, L, estimatedCost⟩
  else
    ⟨true, none, usage, L, estimatedCost⟩

/-! ## Rate limiting (src/lib/rateLimit.ts) -/

/-- Models the LimitResult type of rateLimit.ts. -/
structure LimitResultM where
  success : Bool
  limit : ℕ
  remaining : ℤ
  reset : ℤ
deriving DecidableEq

/-- One per-key record of the in-memory fallback limiter. -/
structure MemRec where
  count : ℕ
  resetAt : ℤ
deriving DecidableEq

/-- Models Math.ceil(x / 1000) for the nonnegative millisecond timestamps
produced by Date.now(). -/
def msCeilSec (x : ℤ) : ℤ := (x + 999) / 1000

/-- Models one invocation of the closure produced by memoryLimiter in
rateLimit.ts for one key: given the recorded state for that key (none when
the key is absent from the map) and the current time, returns the limit
result together with the new recorded state. -/
def memoryLimiterStep (limit : ℕ) (windowMs : ℤ) (rec? : Option MemRec)
    (now : ℤ) : LimitResultM × MemRec :=
  match rec? with
  | none =>
    let resetAt := now + windowMs
    (⟨true, limit, (limit : ℤ) - 1, msCeilSec resetAt⟩, ⟨1, resetAt⟩)
  | some r =>
    if now ≥ r.resetAt then
      let resetAt := now + windowMs
      (⟨true, limit, (limit : ℤ) - 1, msCeilSec resetAt⟩, ⟨1, resetAt⟩)
    else if r.count ≥ limit then
      (⟨false, limit, 0, msCeilSec r.resetAt⟩, r)
    else
      let c := r.count + 1
      (⟨true, limit, (limit : ℤ) - c, msCeilSec r.resetAt⟩, ⟨c, r.resetAt⟩)

/-- The three request-count tiers of checkMultiTierLimits: basic is the
per-minute limiter, burst the per-hour limiter, daily the per-day limiter. -/
inductive RateTier
  | basic
  | burst
  | daily
deriving DecidableEq

/-- Models the MultiTierLimitResult interface of rateLimit.ts. -/
structure MultiTierLimitResult where
  success : Bool
  limit : ℕ
  remaining : ℤ
  reset : ℤ
  tier : RateTier
  message : Option String
deriving DecidableEq

/-- Models checkMultiTierLimits in rateLimit.ts, taking the three limiter
results (produced concurrently in the source) as inputs: the first failing
tier in the order basic, burst, daily is reported; when all pass, the result
with the smallest remaining count is returned under the basic tier. -/
def checkMultiTierLimits (basicResult burstResult dailyResult : LimitResultM) :
    MultiTierLimitResult :=
  if !basicResult.success then
    ⟨false, basicResult.limit, basicResult.remaining, basicResult.reset, .basic,
      some "Too many requests per minute. Please slow down."⟩
  else if !burstResult.success then
    ⟨false, burstResult.limit, burstResult.remaining, burstResult.reset, .burst,
      some "Hourly limit exceeded. Please try again later."⟩
  else if !dailyResult.success then
    ⟨false, dailyResult.limit, dailyResult.remaining, dailyResult.reset, .daily,
      some "Daily limit exceeded. Please try again tomorrow."⟩
  else
    let mostRestrictive := [burstResult, dailyResult].foldl
      (fun m c => if c.remaining < m.remaining then c else m) basicResult
    ⟨mostRestrictive.success, mostRestrictive.limit, mostRestrictive.remaining,
      mostRestrictive.reset, .basic, none⟩

/-! ## Request queues (requestQueue source; areQueuesOverloaded) -/

/-- Saturation predicate for one queue class, from areQueuesOverloaded:
a class is overloaded when queued plus running strictly exceeds 0.8 times the
class's interval cap. -/
def classOverloaded (intervalCap queued running : ℕ) : Bool :=
  decide (((queued : ℚ) + running) > 0.8 * intervalCap)

/-- Length and running count of one queue, as read from fastq. -/
structure QueueSnapshot where
  queued : ℕ
  running : ℕ
deriving DecidableEq

/-- The interval caps of the three queue classes (QUEUE_CONFIG). -/
structure QueueCaps where
  decisionCap : ℕ
  pdfCap : ℕ
  vectorCap : ℕ
deriving DecidableEq

/-- The details object returned by areQueuesOverloaded. -/
structure OverloadDetails where
  decision : Bool
  pdf : Bool
  vector : Bool
deriving DecidableEq

/-- The full result of areQueuesOverloaded. -/
structure OverloadResult where
  overloaded : Bool
  details : OverloadDetails
deriving DecidableEq

/-- Models areQueuesOverloaded: each class is tested with the saturation
predicate, and the global flag is their disjunction. -/
def areQueuesOverloaded (caps : QueueCaps) (dq pq vq : QueueSnapshot) :
    OverloadResult :=
  let d := classOverloaded caps.decisionCap dq.queued dq.running
  let p := classOverloaded caps.pdfCap pq.queued pq.running
  let v := classOverloaded caps.vectorCap vq.queued vq.running
  ⟨d || p || v, ⟨d, p, v⟩⟩

/-! ## Admission pipeline event order (security.ts, decision/route.ts,
cachedTools createCachedTool) -/

/-- Observable events of one request through the admission pipeline. -/
inductive ReqEvent
  | originCheck
  | uaCheck
  | overloadCheck
  | validationCheck
  | rateCheck
  | costCheck
  | moderationCheck
  | dispatch
  | cacheLookup
  | generate
  | cacheStore
  | commitCost
deriving DecidableEq

/-- Models the order of checks in performSecurityCheck (security.ts):
origin, user agent, queue overload, request validation, multi-tier rate
limit, cost limit; the first failing check short-circuits. -/
def securityTrace (originOk uaOk overloaded validOk rateOk costOk : Bool) :
    Bool × List ReqEvent :=
  if !originOk then (false, [.originCheck])
  else if !uaOk then (false, [.originCheck, .uaCheck])
  else if overloaded then (false, [.originCheck, .uaCheck, .overloadCheck])
  else if !validOk then
    (false, [.originCheck, .uaCheck, .overloadCheck, .validationCheck])
  else if !rateOk then
    (false, [.originCheck, .uaCheck, .overloadCheck, .validationCheck, .rateCheck])
  else if !costOk then
    (false, [.originCheck, .uaCheck, .overloadCheck, .validationCheck, .rateCheck,
      .costCheck])
  else
    (true, [.originCheck, .uaCheck, .overloadCheck, .validationCheck, .rateCheck,
      .costCheck])

/-- Models the event order of POST /api/decision together with the cached
agent tools: the full security check runs first; on success, moderation,
then dispatch to the decision queue.  The queued operation resolves as soon
as createUIMessageStream returns its stream, and route.ts then immediately
awaits recordCost, so the estimated-cost commit happens right after
dispatch; the per-agent cache lookups run later, during stream consumption
of the dispatched work, and each cached tool generates plus stores only on
a miss. -/
def decisionTrace (originOk uaOk overloaded validOk rateOk costOk
    moderationOk cacheHit : Bool) : List ReqEvent :=
  let sec := securityTrace originOk uaOk overloaded validOk rateOk costOk
  if !sec.1 then sec.2
  else if !moderationOk then sec.2 ++ [.moderationCheck]
  else
    sec.2 ++ [.moderationCheck, .dispatch, .commitCost] ++
      (if cacheHit then [.cacheLookup] else [.cacheLookup, .generate, .cacheStore])

/-! ## Cache hierarchy (src/lib/caching.ts)

The Redis backing store is modeled as an association list from structured
keys to slots carrying a stored entry and an absolute expiry instant, plus
a failing flag under which every store operation throws (caught by the
source's try/catch blocks).  A slot whose value is none models a stored
blob that JSON.parse rejects.  The sha256 digests used to build keys are
modeled by keeping the digested data itself inside a structured key, one
constructor per key prefix of CACHE_CONFIG.PREFIXES. -/

/-- Models a parsed CacheEntry of caching.ts.  The embedding is optional,
context metadata is dropped (no claim mentions it). -/
structure CacheEntry (T : Type) where
  data : T
  timestamp : ℤ
  ttl : ℤ
  hits : ℕ
  embedding : Option (List ℚ)
deriving DecidableEq

/-- Structured cache keys, one constructor per key prefix used by
caching.ts: exact keys digest the input and the serialized context,
semantic keys digest the input, pattern-level keys digest the pattern tag
and the serialized context (the source calls this level "partial"). -/
inductive CacheKey
  | exactK (input ctx : String)
  | semanticK (input : String)
  | patternK (pat ctx : String)
deriving DecidableEq

/-- The source field of a SemanticCacheResult; patternSrc models the
source string "partial". -/
inductive CacheSource
  | exactSrc
  | semanticSrc
  | patternSrc
  | missSrc
deriving DecidableEq

/-- Models the SemanticCacheResult interface of caching.ts. -/
structure SemanticCacheResult (T : Type) where
  hit : Bool
  data : Option T
  similarity : Option ℚ
  cacheKey : Option CacheKey
  source : CacheSource
deriving DecidableEq

/-- The miss result shared by every lookup path. -/
def missResult (T : Type) : SemanticCacheResult T := ⟨false, none, none, none, .missSrc⟩

/-- One stored Redis value with its absolute expiry; value none models an
unparseable blob. -/
structure RedisSlot (T : Type) where
  value : Option (CacheEntry T)
  expiresAt : ℤ
deriving DecidableEq

/-- The Redis store: an association list of keys to slots plus a flag under
which every operation errors (an unreachable store). -/
structure RedisDB (T : Type) where
  entries : List (CacheKey × RedisSlot T)
  failing : Bool
deriving DecidableEq

/-- First slot stored under a key, if any. -/
def dbFind {T : Type} (db : RedisDB T) (k : CacheKey) : Option (RedisSlot T) :=
  (db.entries.find? (fun p => p.1 = k)).map (·.2)

/-- Write a slot under a key: replace in place when the key is present,
append otherwise. -/
def dbSet {T : Type} (db : RedisDB T) (k : CacheKey) (slot : RedisSlot T) :
    RedisDB T :=
  if db.entries.any (fun p => p.1 = k) then
    { db with entries := db.entries.map (fun p => if p.1 = k then (k, slot) else p) }
  else
    { db with entries := db.entries ++ [(k, slot)] }

/-- Models redis.get: errors when the store is failing, otherwise returns
the stored value of a live (unexpired) key. -/
def redisGet {T : Type} (db : RedisDB T) (k : CacheKey) (now : ℤ) :
    Except Unit (Option (Option (CacheEntry T))) :=
  if db.failing then .error ()
  else
    match dbFind db k with
    | some slot => if now < slot.expiresAt then .ok (some slot.value) else .ok none
    | none => .ok none

/-- Models redis.setex: errors when the store is failing, otherwise stores
the value with expiry now plus ttl. -/
def redisSetex {T : Type} (db : RedisDB T) (k : CacheKey) (ttl : ℤ)
    (v : Option (CacheEntry T)) (now : ℤ) : Except Unit (RedisDB T) :=
  if db.failing then .error ()
  else .ok (dbSet db k ⟨v, now + ttl⟩)

/-- The per-level TTL seconds of CACHE_CONFIG.TTL. -/
def TTL_EXACT_MATCH : ℤ := 24 * 60 * 60

/-- CACHE_CONFIG.TTL.SEMANTIC. -/
def TTL_SEMANTIC : ℤ := 7 * 24 * 60 * 60

/-- CACHE_CONFIG.TTL.PARTIAL_CONTEXT (the pattern level). -/
def TTL_PATTERN : ℤ := 30 * 24 * 60 * 60

/-- Models getCacheEntry of caching.ts: a missing client or any store or
parse error yields null; on a hit the entry's hit count is incremented and
the entry is written back with setex under the entry's own ttl.  Returns
the entry handed to the caller together with the store after the call. -/
def getCacheEntry {T : Type} (redis : Option (RedisDB T)) (k : CacheKey)
    (now : ℤ) : Option (CacheEntry T) × Option (RedisDB T) :=
  match redis with
  | none => (none, none)
  | some db =>
    match redisGet db k now with
    | .error _ => (none, some db)
    | .ok none => (none, some db)
    | .ok (some none) => (none, some db)
    | .ok (some (some entry)) =>
      let entry2 := { entry with hits := entry.hits + 1 }
      match redisSetex db k entry.ttl (some entry2) now with
      | .error _ => (none, some db)
      | .ok db2 => (some entry2, some db2)

/-- Models storeCacheEntry of caching.ts: a missing client is a no-op, a
store error is swallowed; otherwise the entry is stored with setex. -/
def storeCacheEntry {T : Type} (redis : Option (RedisDB T)) (k : CacheKey)
    (data : T) (ttl : ℤ) (embedding : Option (List ℚ)) (now : ℤ) :
    Option (RedisDB T) :=
  match redis with
  | none => none
  | some db =>
    let entry : CacheEntry T := ⟨data, now, ttl, 0, embedding⟩
    match redisSetex db k ttl (some entry) now with
    | .error _ => some db
    | .ok db2 => some db2

/-- Models getExactCache: level-1 lookup by the exact digest key. -/
def getExactCache {T : Type} (redis : Option (RedisDB T)) (input ctx : String)
    (now : ℤ) : SemanticCacheResult T × Option (RedisDB T) :=
  let k := CacheKey.exactK input ctx
  match getCacheEntry redis k now with
  | (some entry, redis2) => (⟨true, some entry.data, some 1, some k, .exactSrc⟩, redis2)
  | (none, redis2) => (missResult T, redis2)

/-- Models setExactCache: store under the exact digest key with the
exact-match TTL. -/
def setExactCache {T : Type} (redis : Option (RedisDB T)) (input ctx : String)
    (data : T) (now : ℤ) : Option (RedisDB T) :=
  storeCacheEntry redis (CacheKey.exactK input ctx) data TTL_EXACT_MATCH none now

/-- Models getPartialCache of caching.ts (the pattern level): lookup by the
digest of the pattern tag and the serialized context. -/
def getPatternCache {T : Type} (redis : Option (RedisDB T)) (pat ctx : String)
    (now : ℤ) : SemanticCacheResult T × Option (RedisDB T) :=
  let k := CacheKey.patternK pat ctx
  match getCacheEntry redis k now with
  | (some entry, redis2) => (⟨true, some entry.data, none, some k, .patternSrc⟩, redis2)
  | (none, redis2) => (missResult T, redis2)

/-- Models setPartialCache of caching.ts: store under the pattern key with
the long pattern-level TTL. -/
def setPatternCache {T : Type} (redis : Option (RedisDB T)) (pat ctx : String)
    (data : T) (now : ℤ) : Option (RedisDB T) :=
  storeCacheEntry redis (CacheKey.patternK pat ctx) data TTL_PATTERN none now

/-! ### Cosine similarity and the semantic level -/

/-- The dotProduct accumulator of the loop in cosineSimilarity. -/
def dotProduct (a b : List ℚ) : ℚ :=
  (List.zip a b).foldl (fun acc p => acc + p.1 * p.2) 0

/-- The normA / normB accumulator of the loop in cosineSimilarity: the sum
of squares of one vector. -/
def normSq (a : List ℚ) : ℚ := a.foldl (fun acc x => acc + x * x) 0

/-- Models cosineSimilarity of caching.ts, with Math.sqrt passed in as
sqrtQ: vectors of unequal length score 0, a zero norm on either side scores
0, otherwise the dot product divided by the product of the root norms. -/
def cosineSimilarity (sqrtQ : ℚ → ℚ) (a b : List ℚ) : ℚ :=
  if a.length ≠ b.length then 0
  else if normSq a = 0 ∨ normSq b = 0 then 0
  else dotProduct a b / (sqrtQ (normSq a) * sqrtQ (normSq b))

/-- The bestMatch record of the scan loop in getSemanticCache. -/
structure BestMatch (T : Type) where
  key : CacheKey
  similarity : ℚ
  entry : CacheEntry T
deriving DecidableEq

/-- One iteration of the scan loop in getSemanticCache: entries without an
embedding are skipped; a candidate replaces the best match when its score
is at least the threshold and strictly above the current best. -/
def semanticStep {T : Type} (sqrtQ : ℚ → ℚ) (inputEmb : List ℚ) (threshold : ℚ)
    (best : Option (BestMatch T)) (p : CacheKey × CacheEntry T) :
    Option (BestMatch T) :=
  match p.2.embedding with
  | none => best
  | some emb =>
    let s := cosineSimilarity sqrtQ inputEmb emb
    let keep : Bool := decide (threshold ≤ s) &&
      (match best with | none => true | some b => decide (b.similarity < s))
    if keep then some ⟨p.1, s, p.2⟩ else best

/-- The scan loop of getSemanticCache over the listed entries. -/
def semanticScan {T : Type} (sqrtQ : ℚ → ℚ) (inputEmb : List ℚ) (threshold : ℚ)
    (l : List (CacheKey × CacheEntry T)) : Option (BestMatch T) :=
  l.foldl (semanticStep sqrtQ inputEmb threshold) none

/-- Whether a key lives in the semantic prefix namespace. -/
def isSemanticKey : CacheKey → Bool
  | .semanticK _ => true
  | _ => false

/-- The entries getSemanticCache scans: the live keys under the semantic
prefix, capped at the first 100 (keys.slice(0, 100) in the source), with
unparseable blobs skipped by the per-key try/catch. -/
def scannedSemanticEntries {T : Type} (db : RedisDB T) (now : ℤ) :
    List (CacheKey × CacheEntry T) :=
  ((db.entries.filter (fun p => isSemanticKey p.1 && decide (now < p.2.expiresAt))).take
      100).filterMap (fun p => p.2.value.map (fun e => (p.1, e)))

/-- Models getSemanticCache of caching.ts: a missing client or a failing
store yields a miss (the outer try/catch); otherwise the input's embedding
is compared against the scanned entries and the best match at or above the
threshold, if any, is the hit.  embedOf models the deterministic
getCachedEmbedding text-to-vector transform. -/
def getSemanticCache {T : Type} (sqrtQ : ℚ → ℚ) (embedOf : String → List ℚ)
    (redis : Option (RedisDB T)) (input : String) (threshold : ℚ) (now : ℤ) :
    SemanticCacheResult T :=
  match redis with
  | none => missResult T
  | some db =>
    if db.failing then missResult T
    else
      match semanticScan sqrtQ (embedOf input) threshold (scannedSemanticEntries db now) with
      | some bm => ⟨true, some bm.entry.data, some bm.similarity, some bm.key, .semanticSrc⟩
      | none => missResult T

/-- Models setSemanticCache of caching.ts: store the data together with the
input's embedding under the semantic digest key with the semantic TTL. -/
def setSemanticCache {T : Type} (embedOf : String → List ℚ)
    (redis : Option (RedisDB T)) (input : String) (data : T) (now : ℤ) :
    Option (RedisDB T) :=
  storeCacheEntry redis (CacheKey.semanticK input) data TTL_SEMANTIC
    (some (embedOf input)) now

/-! ## Helper lemmas about the cost ledger -/

/-- The last-reset day marker after a lazy reset. -/
theorem reset_lastReset_day (now : Clock) (s : UserCostData) :
    (resetExpiredCounters now s).lastReset.day =
      if now.day > s.lastReset.day then now.day else s.lastReset.day := rfl

/-- The last-reset hour marker after a lazy reset. -/
theorem reset_lastReset_hour (now : Clock) (s : UserCostData) :
    (resetExpiredCounters now s).lastReset.hour =
      if now.hour > s.lastReset.hour then now.hour else s.lastReset.hour := rfl

/-- The last-reset month marker after a lazy reset. -/
theorem reset_lastReset_month (now : Clock) (s : UserCostData) :
    (resetExpiredCounters now s).lastReset.month =
      if now.month > s.lastReset.month then now.month else s.lastReset.month := rfl

/-- A reset at a time no later than every recorded marker is a no-op. -/
theorem resetExpiredCounters_eq_self (now : Clock) (s : UserCostData)
    (h1 : ¬ now.day > s.lastReset.day) (h2 : ¬ now.hour > s.lastReset.hour)
    (h3 : ¬ now.month > s.lastReset.month) :
    resetExpiredCounters now s = s := by
  simp [resetExpiredCounters, h1, h2, h3]

/-- Committing a cost leaves the reset markers of the lazy reset in place. -/
theorem recordCostData_lastReset (now : Clock) (s : UserCostData) (a : ℚ) :
    (recordCostData now s a).lastReset = (resetExpiredCounters now s).lastReset := rfl

/-- A second lazy reset at the same instant is a no-op after a commit. -/
theorem resetExpiredCounters_recordCostData (now : Clock) (s : UserCostData) (a : ℚ) :
    resetExpiredCounters now (recordCostData now s a) = recordCostData now s a := by
  apply resetExpiredCounters_eq_self <;>
    rw [recordCostData_lastReset]
  · rw [reset_lastReset_day]; split_ifs with h <;> omega
  · rw [reset_lastReset_hour]; split_ifs with h <;> omega
  · rw [reset_lastReset_month]; split_ifs with h <;> omega

/-! ## Claim theorems: quota ledger and rate limiting -/

/-- C6: after a commit (recordCost) of the actual amount, every subsequent
reserve check (checkCostLimits) at the same instant computes its current
usage, and therefore its projected totals, from counters that include the
full committed amount: its usage equals the lazily reset counters plus the
actual amount, and it allows the request exactly when every projected total
(usage plus the new estimate) is within its limit. -/
theorem C6_commit_reflected (L : CostLimits) (now : Clock) (s : UserCostData)
    (a e : ℚ) :
    (checkCostLimits L now (recordCostData now s a) e).currentUsage =
      ⟨(resetExpiredCounters now s).daily + a,
       (resetExpiredCounters now s).hourly + a,
       (resetExpiredCounters now s).monthly + a⟩ ∧
    (checkCostLimits L now (recordCostData now s a) e).allowed =
      (decide ((resetExpiredCounters now s).daily + a + e ≤ L.daily) &&
       decide ((resetExpiredCounters now s).hourly + a + e ≤ L.hourly) &&
       decide ((resetExpiredCounters now s).monthly + a + e ≤ L.monthly)) := by
  have hidem := resetExpiredCounters_recordCostData now s a
  have hd : (recordCostData now s a).daily = (resetExpiredCounters now s).daily + a := rfl
  have hh : (recordCostData now s a).hourly = (resetExpiredCounters now s).hourly + a := rfl
  have hm : (recordCostData now s a).monthly = (resetExpiredCounters now s).monthly + a := rfl
  constructor
  · simp only [checkCostLimits, hidem]
    split_ifs <;> simp [hd, hh, hm]
  · simp only [checkCostLimits, hidem]
    split_ifs with h1 h2 h3
    · rw [hd] at h1
      simp [not_le_of_gt h1]
    · rw [hd] at h1; rw [hh] at h2
      simp [not_lt.mp h1, not_le_of_gt h2]
    · rw [hd] at h1; rw [hh] at h2; rw [hm] at h3
      simp [not_lt.mp h1, not_lt.mp h2, not_le_of_gt h3]
    · rw [hd] at h1; rw [hh] at h2; rw [hm] at h3
      simp [not_lt.mp h1, not_lt.mp h2, not_lt.mp h3]

/-- C9: quota-window reset is lazy.  A counter whose day, hour or month
boundary has passed is zeroed by the first subsequent read (checkCostLimits)
or write (recordCostData) of the client's state, before the new amount is
considered, and the in-memory fallback limiter restarts its per-key count at
1 with a fresh window on the first call at or after the recorded reset
time. -/
theorem C9_lazy_reset :
    (∀ now s, now.day > s.lastReset.day →
      (resetExpiredCounters now s).daily = 0 ∧
      (resetExpiredCounters now s).lastReset.day = now.day) ∧
    (∀ now s, now.hour > s.lastReset.hour →
      (resetExpiredCounters now s).hourly = 0 ∧
      (resetExpiredCounters now s).lastReset.hour = now.hour) ∧
    (∀ now s, now.month > s.lastReset.month →
      (resetExpiredCounters now s).monthly = 0 ∧
      (resetExpiredCounters now s).lastReset.month = now.month) ∧
    (∀ L now s e, now.day > s.lastReset.day →
      (checkCostLimits L now s e).currentUsage.daily = 0) ∧
    (∀ now s a, now.day > s.lastReset.day →
      (recordCostData now s a).daily = a) ∧
    (∀ (limit : ℕ) (windowMs : ℤ) (r : MemRec) (now : ℤ), now ≥ r.resetAt →
      memoryLimiterStep limit windowMs (some r) now =
        (⟨true, limit, (limit : ℤ) - 1, msCeilSec (now + windowMs)⟩,
          ⟨1, now + windowMs⟩)) := by
  have hday : ∀ now s, now.day > s.lastReset.day →
      (resetExpiredCounters now s).daily = 0 := by
    intro now s h
    simp [resetExpiredCounters, h]
  refine ⟨?_, ?_, ?_, ?_, ?_, ?_⟩
  · intro now s h
    exact ⟨hday now s h, by simp [resetExpiredCounters, h]⟩
  · intro now s h
    exact ⟨by simp [resetExpiredCounters, h], by simp [resetExpiredCounters, h]⟩
  · intro now s h
    exact ⟨by simp [resetExpiredCounters, h], by simp [resetExpiredCounters, h]⟩
  · intro L now s e h
    have hz := hday now s h
    simp only [checkCostLimits]
    split_ifs <;> simpa using hz
  · intro now s a h
    have hz := hday now s h
    simp [recordCostData, hz]
  · intro limit windowMs r now h
    simp [memoryLimiterStep, h]

/-- C9 witness: a state whose day boundary has passed is zeroed on the next
read, and the fallback limiter restarts at the reset time. -/
theorem C9_lazy_reset_witness :
    (resetExpiredCounters ⟨1, 0, 0⟩ ⟨5, 5, 5, ⟨0, 0, 0⟩⟩).daily = 0 ∧
    memoryLimiterStep 5 60000 (some ⟨5, 100⟩) 100 =
      (⟨true, 5, 4, msCeilSec 60100⟩, ⟨1, 60100⟩) :=
  ⟨(C9_lazy_reset.1 ⟨1, 0, 0⟩ ⟨5, 5, 5, ⟨0, 0, 0⟩⟩ (by decide)).1,
    by simpa using C9_lazy_reset.2.2.2.2.2 5 60000 ⟨5, 100⟩ 100 (by decide)⟩

/-! ## Claim theorems: queue saturation -/

/-- C8: a queue class is reported overloaded exactly when its queued length
plus running count strictly exceeds 0.8 times its interval cap; the
predicate is monotone in both queued and running for a fixed cap; and the
details of areQueuesOverloaded report exactly this predicate per class. -/
theorem C8_overload_monotone :
    (∀ cap q r : ℕ, classOverloaded cap q r = true ↔ ((q : ℚ) + r > 0.8 * cap)) ∧
    (∀ cap q q' r r' : ℕ, q ≤ q' → r ≤ r' →
      classOverloaded cap q r = true → classOverloaded cap q' r' = true) ∧
    (∀ caps dq pq vq,
      (areQueuesOverloaded caps dq pq vq).details =
        ⟨classOverloaded caps.decisionCap dq.queued dq.running,
         classOverloaded caps.pdfCap pq.queued pq.running,
         classOverloaded caps.vectorCap vq.queued vq.running⟩ ∧
      (areQueuesOverloaded caps dq pq vq).overloaded =
        (classOverloaded caps.decisionCap dq.queued dq.running ||
         classOverloaded caps.pdfCap pq.queued pq.running ||
         classOverloaded caps.vectorCap vq.queued vq.running)) := by
  refine ⟨?_, ?_, ?_⟩
  · intro cap q r
    simp [classOverloaded]
  · intro cap q q' r r' hq hr h
    simp only [classOverloaded, decide_eq_true_eq] at h ⊢
    have hq' : (q : ℚ) ≤ q' := by exact_mod_cast hq
    have hr' : (r : ℚ) ≤ r' := by exact_mod_cast hr
    linarith
  · intro caps dq pq vq
    exact ⟨rfl, rfl⟩

/-- C8 witness: with cap 10, the class overloaded at 7 queued and 2 running
stays overloaded at 8 queued and 2 running. -/
theorem C8_overload_monotone_witness : classOverloaded 10 8 2 = true :=
  C8_overload_monotone.2.1 10 7 8 2 2 (by norm_num) (by norm_num)
    (by rw [C8_overload_monotone.1]; norm_num)

/-- C4 counterexample: claim C4 states that the monetary-cost families are
checked hourly, then daily, then monthly.  At a state where both the hourly
and the daily projections exceed their limits, the source rejects with the
daily family, while the claimed order would have to name the hourly family,
so the claim is false as stated. -/
theorem C4_counterexample :
    (checkCostLimits ⟨5, 1, 50⟩ ⟨0, 0, 0⟩ ⟨100, 100, 0, ⟨0, 0, 0⟩⟩ 1).reason
        = some CostFamily.daily ∧
    (claimedCostCheck ⟨5, 1, 50⟩ ⟨0, 0, 0⟩ ⟨100, 100, 0, ⟨0, 0, 0⟩⟩ 1).reason
        = some CostFamily.hourly ∧
    some CostFamily.daily ≠ some CostFamily.hourly := by
  refine ⟨?_, ?_, by decide⟩ <;>
    norm_num [checkCostLimits, claimedCostCheck, resetExpiredCounters]

/-- C4 amended: the cost families are checked in the fixed order daily,
hourly, monthly (not hourly first); the first family whose projected total
current + amount strictly exceeds its limit rejects, and the reason names
exactly that family.  The request-count tiers are checked in the fixed order
basic (per minute), burst (per hour), daily, with no monthly tier; the first
failing tier is reported and named. -/
theorem C4_window_order (L : CostLimits) (now : Clock) (s : UserCostData)
    (e : ℚ) (b br d : LimitResultM) :
    ((resetExpiredCounters now s).daily + e > L.daily →
      (checkCostLimits L now s e).allowed = false ∧
      (checkCostLimits L now s e).reason = some CostFamily.daily) ∧
    ((resetExpiredCounters now s).daily + e ≤ L.daily →
      (resetExpiredCounters now s).hourly + e > L.hourly →
      (checkCostLimits L now s e).allowed = false ∧
      (checkCostLimits L now s e).reason = some CostFamily.hourly) ∧
    ((resetExpiredCounters now s).daily + e ≤ L.daily →
      (resetExpiredCounters now s).hourly + e ≤ L.hourly →
      (resetExpiredCounters now s).monthly + e > L.monthly →
      (checkCostLimits L now s e).allowed = false ∧
      (checkCostLimits L now s e).reason = some CostFamily.monthly) ∧
    ((resetExpiredCounters now s).daily + e ≤ L.daily →
      (resetExpiredCounters now s).hourly + e ≤ L.hourly →
      (resetExpiredCounters now s).monthly + e ≤ L.monthly →
      (checkCostLimits L now s e).allowed = true ∧
      (checkCostLimits L now s e).reason = none) ∧
    (b.success = false →
      (checkMultiTierLimits b br d).success = false ∧
      (checkMultiTierLimits b br d).tier = RateTier.basic) ∧
    (b.success = true → br.success = false →
      (checkMultiTierLimits b br d).success = false ∧
      (checkMultiTierLimits b br d).tier = RateTier.burst) ∧
    (b.success = true → br.success = true → d.success = false →
      (checkMultiTierLimits b br d).success = false ∧
      (checkMultiTierLimits b br d).tier = RateTier.daily) ∧
    (b.success = true → br.success = true → d.success = true →
      (checkMultiTierLimits b br d).success = true ∧
      (checkMultiTierLimits b br d).tier = RateTier.basic) := by
  refine ⟨?_, ?_, ?_, ?_, ?_, ?_, ?_, ?_⟩
  · intro h1
    constructor <;> simp [checkCostLimits, h1]
  · intro h1 h2
    constructor <;> simp [checkCostLimits, not_lt_of_le h1, h2]
  · intro h1 h2 h3
    constructor <;> simp [checkCostLimits, not_lt_of_le h1, not_lt_of_le h2, h3]
  · intro h1 h2 h3
    constructor <;>
      simp [checkCostLimits, not_lt_of_le h1, not_lt_of_le h2, not_lt_of_le h3]
  · intro hb
    constructor <;> simp [checkMultiTierLimits, hb]
  · intro hb hbr
    constructor <;> simp [checkMultiTierLimits, hb, hbr]
  · intro hb hbr hd
    constructor <;> simp [checkMultiTierLimits, hb, hbr, hd]
  · intro hb hbr hd
    refine ⟨?_, ?_⟩
    · simp only [checkMultiTierLimits, hb, hbr, hd, Bool.not_true, Bool.false_eq_true,
        if_false, List.foldl]
      split_ifs <;> simp_all
    · simp only [checkMultiTierLimits, hb, hbr, hd, Bool.not_true, Bool.false_eq_true,
        if_false, List.foldl]

/-- C4 witness: a concrete state whose daily projection alone is exceeded is
rejected with the daily family named. -/
theorem C4_window_order_witness :
    (checkCostLimits ⟨5, 1, 50⟩ ⟨0, 0, 0⟩ ⟨100, 0, 0, ⟨0, 0, 0⟩⟩ 1).allowed = false ∧
    (checkCostLimits ⟨5, 1, 50⟩ ⟨0, 0, 0⟩ ⟨100, 0, 0, ⟨0, 0, 0⟩⟩ 1).reason
      = some CostFamily.daily :=
  (C4_window_order ⟨5, 1, 50⟩ ⟨0, 0, 0⟩ ⟨100, 0, 0, ⟨0, 0, 0⟩⟩ 1
    ⟨true, 0, 0, 0⟩ ⟨true, 0, 0, 0⟩ ⟨true, 0, 0, 0⟩).1
    (by norm_num [resetExpiredCounters])

/-! ## Claim theorems: admission pipeline ordering -/

/-- C2 counterexample: on a request where every check passes and the
eventual agent-level cache lookup hits, the capacity (overload) check and
the quota (rate and cost) checks all still run, and the overload check
occurs strictly before the cache lookup in the trace — so the cache lookup
does not precede the capacity and quota checks, and capacity and quota are
consulted even without a cache miss, refuting the claim as stated. -/
theorem C2_counterexample :
    ReqEvent.overloadCheck ∈ decisionTrace true true false true true true true true ∧
    ReqEvent.rateCheck ∈ decisionTrace true true false true true true true true ∧
    ReqEvent.costCheck ∈ decisionTrace true true false true true true true true ∧
    (decisionTrace true true false true true true true true).indexOf
        ReqEvent.overloadCheck <
      (decisionTrace true true false true true true true true).indexOf
        ReqEvent.cacheLookup := by
  decide

/-- C2 amended: within one request the capacity (overload) check and the
quota (rate-limit and cost) checks are all performed before dispatch, and
work is dispatched only when they all pass; the per-agent cache lookup
happens inside the dispatched work, after those checks (not before them),
and generation runs only on a cache miss; the estimated cost is recorded
as soon as the queue push resolves, after dispatch, without waiting for the
per-agent lookups or generation. -/
theorem C2_check_order :
    ∀ o u ov v r c m h : Bool,
      (ReqEvent.dispatch ∈ decisionTrace o u ov v r c m h →
        ov = false ∧ r = true ∧ c = true ∧
        (decisionTrace o u ov v r c m h).indexOf ReqEvent.overloadCheck <
          (decisionTrace o u ov v r c m h).indexOf ReqEvent.dispatch ∧
        (decisionTrace o u ov v r c m h).indexOf ReqEvent.rateCheck <
          (decisionTrace o u ov v r c m h).indexOf ReqEvent.dispatch ∧
        (decisionTrace o u ov v r c m h).indexOf ReqEvent.costCheck <
          (decisionTrace o u ov v r c m h).indexOf ReqEvent.dispatch ∧
        (decisionTrace o u ov v r c m h).indexOf ReqEvent.dispatch <
          (decisionTrace o u ov v r c m h).indexOf ReqEvent.cacheLookup ∧
        (decisionTrace o u ov v r c m h).indexOf ReqEvent.dispatch <
          (decisionTrace o u ov v r c m h).indexOf ReqEvent.commitCost) ∧
      (ReqEvent.generate ∈ decisionTrace o u ov v r c m h ↔
        ReqEvent.dispatch ∈ decisionTrace o u ov v r c m h ∧ h = false) := by
  decide

/-- C2 witness: on an all-pass request whose cache lookup misses, work is
dispatched and generation runs. -/
theorem C2_check_order_witness :
    ReqEvent.generate ∈ decisionTrace true true false true true true true false :=
  (C2_check_order true true false true true true true false).2.mpr ⟨by decide, rfl⟩

/-! ## Helper lemmas about cosine similarity -/

/-- The sum-of-squares fold keeps a nonnegative accumulator nonnegative. -/
theorem foldl_add_sq_nonneg (l : List ℚ) (acc : ℚ) (h : 0 ≤ acc) :
    0 ≤ l.foldl (fun acc x => acc + x * x) acc := by
  induction l generalizing acc with
  | nil => simpa using h
  | cons x l ih =>
    simpa using ih (acc + x * x) (by nlinarith [mul_self_nonneg x])

/-- A sum of squares is nonnegative. -/
theorem normSq_nonneg (a : List ℚ) : 0 ≤ normSq a :=
  foldl_add_sq_nonneg a 0 le_rfl

/-- The dot product of a vector with itself is its sum of squares. -/
theorem dotProduct_self (v : List ℚ) : dotProduct v v = normSq v := by
  suffices h : ∀ acc : ℚ,
      (List.zip v v).foldl (fun acc p => acc + p.1 * p.2) acc =
        v.foldl (fun acc x => acc + x * x) acc by
    simpa [dotProduct, normSq] using h 0
  induction v with
  | nil => intro acc; rfl
  | cons x v ih => intro acc; simpa using ih (acc + x * x)

/-- Cosine similarity of a nonzero vector with itself is 1 when the square
root behaves as a square root at the vector's norm. -/
theorem cosineSimilarity_self (sqrtQ : ℚ → ℚ) (v : List ℚ)
    (hsq : sqrtQ (normSq v) * sqrtQ (normSq v) = normSq v)
    (hn : normSq v ≠ 0) : cosineSimilarity sqrtQ v v = 1 := by
  have h1 : ¬ (normSq v = 0 ∨ normSq v = 0) := by simpa using hn
  simp [cosineSimilarity, h1, hsq, dotProduct_self, div_self hn]
  exact hn

/-- C10: cosineSimilarity is total and guarded: vectors of unequal length
score 0, a zero norm on either side scores 0, and when the division branch
is reached both norms are strictly positive, so with Math.sqrt positive on
positive inputs the divisor is nonzero. -/
theorem C10_cosine_guards (sqrtQ : ℚ → ℚ) (a b : List ℚ) :
    (a.length ≠ b.length → cosineSimilarity sqrtQ a b = 0) ∧
    (normSq a = 0 ∨ normSq b = 0 → cosineSimilarity sqrtQ a b = 0) ∧
    (a.length = b.length → normSq a ≠ 0 → normSq b ≠ 0 →
      0 < normSq a ∧ 0 < normSq b ∧
      (0 < sqrtQ (normSq a) → 0 < sqrtQ (normSq b) →
        sqrtQ (normSq a) * sqrtQ (normSq b) ≠ 0 ∧
        cosineSimilarity sqrtQ a b =
          dotProduct a b / (sqrtQ (normSq a) * sqrtQ (normSq b)))) := by
  refine ⟨?_, ?_, ?_⟩
  · intro h
    simp [cosineSimilarity, h]
  · intro h
    by_cases hl : a.length = b.length
    · simp [cosineSimilarity, hl, h]
    · simp [cosineSimilarity, hl]
  · intro hl ha hb
    refine ⟨lt_of_le_of_ne (normSq_nonneg a) (Ne.symm ha),
      lt_of_le_of_ne (normSq_nonneg b) (Ne.symm hb), ?_⟩
    intro hsa hsb
    refine ⟨ne_of_gt (mul_pos hsa hsb), ?_⟩
    simp [cosineSimilarity, hl, ha, hb]

/-- C10 witness: two concrete vectors of equal length and nonzero norm reach
the division branch with a nonzero divisor. -/
theorem C10_cosine_guards_witness :
    id (normSq [(1 : ℚ)]) * id (normSq [(2 : ℚ)]) ≠ 0 ∧
    cosineSimilarity id [(1 : ℚ)] [(2 : ℚ)] =
      dotProduct [(1 : ℚ)] [(2 : ℚ)] / (id (normSq [(1 : ℚ)]) * id (normSq [(2 : ℚ)])) :=
  ((C10_cosine_guards id [(1 : ℚ)] [(2 : ℚ)]).2.2 rfl
    (by norm_num [normSq]) (by norm_num [normSq])).2.2
    (by norm_num [normSq]) (by norm_num [normSq])

/-! ## Helper lemmas about the semantic scan loop -/

/-- Case analysis for one scan step: either the best match is left alone
(and when the candidate has an embedding scoring at or above the threshold,
the current best already scores at least as high), or the candidate has an
embedding scoring at or above the threshold and strictly above the current
best, and it becomes the new best. -/
theorem semanticStep_eq {T : Type} (sqrtQ : ℚ → ℚ) (ie : List ℚ) (th : ℚ)
    (b : Option (BestMatch T)) (p : CacheKey × CacheEntry T) :
    (semanticStep sqrtQ ie th b p = b ∧
      ∀ emb, p.2.embedding = some emb → th ≤ cosineSimilarity sqrtQ ie emb →
        ∃ b0, b = some b0 ∧ cosineSimilarity sqrtQ ie emb ≤ b0.similarity) ∨
    (∃ emb, p.2.embedding = some emb ∧
      th ≤ cosineSimilarity sqrtQ ie emb ∧
      (∀ b0, b = some b0 → b0.similarity < cosineSimilarity sqrtQ ie emb) ∧
      semanticStep sqrtQ ie th b p =
        some ⟨p.1, cosineSimilarity sqrtQ ie emb, p.2⟩) := by
  cases hemb : p.2.embedding with
  | none =>
    left
    constructor
    · simp [semanticStep, hemb]
    · intro emb h
      exact absurd h (by simp)
  | some emb =>
    by_cases hth : th ≤ cosineSimilarity sqrtQ ie emb
    · cases b with
      | none =>
        right
        refine ⟨emb, rfl, hth, ?_, ?_⟩
        · intro b0 h
          cases h
        · simp [semanticStep, hemb, hth]
      | some b0 =>
        by_cases hlt : b0.similarity < cosineSimilarity sqrtQ ie emb
        · right
          refine ⟨emb, rfl, hth, ?_, ?_⟩
          · intro b1 h
            injection h with h
            exact h ▸ hlt
          · simp [semanticStep, hemb, hth, hlt]
        · left
          refine ⟨?_, ?_⟩
          · simp [semanticStep, hemb, hlt]
          · intro emb2 hemb2 _
            injection hemb2 with h
            subst h
            exact ⟨b0, rfl, not_lt.mp hlt⟩
    · left
      refine ⟨?_, ?_⟩
      · cases b with
        | none => simp [semanticStep, hemb, hth]
        | some b0 => simp [semanticStep, hemb, hth]
      · intro emb2 hemb2 hth2
        injection hemb2 with h
        subst h
        exact absurd hth2 hth

/-- Folding the scan step from a best match never loses it and never lowers
the best similarity. -/
theorem semanticFold_some_mono {T : Type} (sqrtQ : ℚ → ℚ) (ie : List ℚ) (th : ℚ)
    (l : List (CacheKey × CacheEntry T)) (b bm : BestMatch T)
    (h : l.foldl (semanticStep sqrtQ ie th) (some b) = some bm) :
    b.similarity ≤ bm.similarity := by
  induction l generalizing b with
  | nil =>
    simp only [List.foldl_nil, Option.some.injEq] at h
    exact h ▸ le_rfl
  | cons q l ih =>
    simp only [List.foldl_cons] at h
    rcases semanticStep_eq sqrtQ ie th (some b) q with ⟨hstep, _⟩ |
      ⟨emb, hemb, hth, hlt, hstep⟩
    · rw [hstep] at h
      exact ih b h
    · rw [hstep] at h
      exact le_trans (le_of_lt (hlt b rfl)) (ih _ h)

/-- Every best match produced by the fold scores at or above the threshold,
provided the initial best (if any) does. -/
theorem semanticFold_some_threshold {T : Type} (sqrtQ : ℚ → ℚ) (ie : List ℚ)
    (th : ℚ) (l : List (CacheKey × CacheEntry T)) (b0 : Option (BestMatch T))
    (bm : BestMatch T) (hb0 : ∀ b, b0 = some b → th ≤ b.similarity)
    (h : l.foldl (semanticStep sqrtQ ie th) b0 = some bm) :
    th ≤ bm.similarity := by
  induction l generalizing b0 with
  | nil =>
    simp only [List.foldl_nil] at h
    exact hb0 bm h
  | cons q l ih =>
    simp only [List.foldl_cons] at h
    rcases semanticStep_eq sqrtQ ie th b0 q with ⟨hstep, _⟩ |
      ⟨emb, hemb, hth, hlt, hstep⟩
    · exact ih b0 hb0 (hstep ▸ h)
    · refine ih _ ?_ (hstep ▸ h)
      intro b hb
      injection hb with hb
      exact hb ▸ hth

/-- The best match produced by the fold dominates every scanned candidate
that scores at or above the threshold. -/
theorem semanticFold_some_ge {T : Type} (sqrtQ : ℚ → ℚ) (ie : List ℚ) (th : ℚ)
    (l : List (CacheKey × CacheEntry T)) (b0 : Option (BestMatch T))
    (bm : BestMatch T) (h : l.foldl (semanticStep sqrtQ ie th) b0 = some bm) :
    ∀ p ∈ l, ∀ emb, p.2.embedding = some emb →
      th ≤ cosineSimilarity sqrtQ ie emb →
      cosineSimilarity sqrtQ ie emb ≤ bm.similarity := by
  induction l generalizing b0 with
  | nil =>
    intro p hp
    simp at hp
  | cons q l ih =>
    intro p hp emb hemb hth
    simp only [List.foldl_cons] at h
    rcases List.mem_cons.mp hp with rfl | hpl
    · rcases semanticStep_eq sqrtQ ie th b0 p with ⟨hstep, hside⟩ |
        ⟨emb2, hemb2, hth2, hlt2, hstep⟩
      · obtain ⟨b, hb0, hble⟩ := hside emb hemb hth
        rw [hstep, hb0] at h
        exact le_trans hble (semanticFold_some_mono sqrtQ ie th l b bm h)
      · rw [hstep] at h
        have hm := semanticFold_some_mono sqrtQ ie th l _ bm h
        rw [hemb] at hemb2
        injection hemb2 with hemb2
        simpa [hemb2] using hm
    · exact ih (semanticStep sqrtQ ie th b0 q) h p hpl emb hemb hth

/-- Every best match produced by the fold starting from no best match comes
from a scanned candidate, with its stored similarity. -/
theorem semanticFold_some_mem {T : Type} (sqrtQ : ℚ → ℚ) (ie : List ℚ) (th : ℚ)
    (l : List (CacheKey × CacheEntry T)) (b0 : Option (BestMatch T))
    (bm : BestMatch T) (h : l.foldl (semanticStep sqrtQ ie th) b0 = some bm) :
    b0 = some bm ∨ ∃ p, p ∈ l ∧ bm.key = p.1 ∧ bm.entry = p.2 ∧
      ∃ emb, p.2.embedding = some emb ∧
        bm.similarity = cosineSimilarity sqrtQ ie emb := by
  induction l generalizing b0 with
  | nil =>
    left
    simpa using h
  | cons q l ih =>
    simp only [List.foldl_cons] at h
    rcases ih (semanticStep sqrtQ ie th b0 q) h with h1 | ⟨p, hp, rest⟩
    · rcases semanticStep_eq sqrtQ ie th b0 q with ⟨hstep, _⟩ |
        ⟨emb, hemb, hth, hlt, hstep⟩
      · left
        rw [hstep] at h1
        exact h1
      · right
        rw [hstep] at h1
        injection h1 with h1
        exact ⟨q, List.mem_cons_self q l, by rw [← h1], by rw [← h1], emb, hemb,
          by rw [← h1]⟩
    · right
      exact ⟨p, List.mem_cons_of_mem q hp, rest⟩

/-- When every scanned candidate scores strictly below the threshold, the
fold starting from no best match produces none. -/
theorem semanticFold_none {T : Type} (sqrtQ : ℚ → ℚ) (ie : List ℚ) (th : ℚ)
    (l : List (CacheKey × CacheEntry T))
    (h : ∀ p ∈ l, ∀ emb, p.2.embedding = some emb →
      cosineSimilarity sqrtQ ie emb < th) :
    l.foldl (semanticStep sqrtQ ie th) none = none := by
  induction l with
  | nil => rfl
  | cons q l ih =>
    have hq : semanticStep sqrtQ ie th none q = none := by
      rcases semanticStep_eq sqrtQ ie th none q with ⟨hstep, _⟩ |
        ⟨emb, hemb, hth, _, _⟩
      · exact hstep
      · exact absurd hth (not_le.mpr (h q (List.mem_cons_self q l) emb hemb))
    simp only [List.foldl_cons, hq]
    exact ih (fun p hp => h p (List.mem_cons_of_mem q hp))

/-! ## Claim theorem: semantic lookup threshold and tie-break -/

/-- C1: getSemanticCache returns a hit only when the best candidate scores
at or above the threshold (compared with greater-or-equal): on a hit the
reported similarity is at least the threshold, dominates the score of every
scanned entry, and belongs to one of the scanned entries whose data is
returned; and when every scanned candidate scores strictly below the
threshold the lookup is a miss, never a low-confidence hit. -/
theorem C1_semantic_threshold {T : Type} (sqrtQ : ℚ → ℚ)
    (embedOf : String → List ℚ) (redis : Option (RedisDB T)) (input : String)
    (threshold : ℚ) (now : ℤ) :
    ((getSemanticCache sqrtQ embedOf redis input threshold now).hit = true →
      ∃ s, (getSemanticCache sqrtQ embedOf redis input threshold now).similarity
          = some s ∧
        threshold ≤ s ∧
        (∀ db, redis = some db → ∀ p ∈ scannedSemanticEntries db now, ∀ emb,
          p.2.embedding = some emb →
          cosineSimilarity sqrtQ (embedOf input) emb ≤ s) ∧
        (∃ db, redis = some db ∧ ∃ p, p ∈ scannedSemanticEntries db now ∧
          (getSemanticCache sqrtQ embedOf redis input threshold now).data
            = some p.2.data ∧
          ∃ emb, p.2.embedding = some emb ∧
            s = cosineSimilarity sqrtQ (embedOf input) emb)) ∧
    (∀ db, redis = some db →
      (∀ p ∈ scannedSemanticEntries db now, ∀ emb, p.2.embedding = some emb →
        cosineSimilarity sqrtQ (embedOf input) emb < threshold) →
      (getSemanticCache sqrtQ embedOf redis input threshold now).hit = false) := by
  cases redis with
  | none =>
    constructor
    · intro hhit
      simp [getSemanticCache, missResult] at hhit
    · intro db hdb
      cases hdb
  | some db =>
    by_cases hf : db.failing
    · constructor
      · intro hhit
        simp [getSemanticCache, hf, missResult] at hhit
      · intro db2 hdb2 _
        simp [getSemanticCache, hf, missResult]
    · cases hscan : semanticScan sqrtQ (embedOf input) threshold
        (scannedSemanticEntries db now) with
      | none =>
        constructor
        · intro hhit
          simp [getSemanticCache, hf, hscan, missResult] at hhit
        · intro db2 hdb2 _
          simp [getSemanticCache, hf, hscan, missResult]
      | some bm =>
        have hfold : (scannedSemanticEntries db now).foldl
            (semanticStep sqrtQ (embedOf input) threshold) none = some bm := hscan
        have hres : getSemanticCache sqrtQ embedOf (some db) input threshold now
            = ⟨true, some bm.entry.data, some bm.similarity, some bm.key,
              .semanticSrc⟩ := by
          simp [getSemanticCache, hf, hscan]
        constructor
        · intro _
          refine ⟨bm.similarity, by rw [hres], ?_, ?_, ?_⟩
          · exact semanticFold_some_threshold sqrtQ (embedOf input) threshold
              (scannedSemanticEntries db now) none bm (by intro b hb; cases hb) hfold
          · intro db2 hdb2 p hp emb hemb
            injection hdb2 with hdb2
            subst hdb2
            by_cases hth : threshold ≤ cosineSimilarity sqrtQ (embedOf input) emb
            · exact semanticFold_some_ge sqrtQ (embedOf input) threshold
                (scannedSemanticEntries db now) none bm hfold p hp emb hemb hth
            · have h1 := semanticFold_some_threshold sqrtQ (embedOf input) threshold
                (scannedSemanticEntries db now) none bm (by intro b hb; cases hb) hfold
              exact le_trans (le_of_lt (not_le.mp hth)) h1
          · refine ⟨db, rfl, ?_⟩
            rcases semanticFold_some_mem sqrtQ (embedOf input) threshold
              (scannedSemanticEntries db now) none bm hfold with h0 |
              ⟨p, hp, hk, he, emb, hemb, hs⟩
            · cases h0
            · exact ⟨p, hp, by rw [hres]; simpa using congrArg CacheEntry.data he,
                emb, hemb, hs⟩
        · intro db2 hdb2 hbelow
          injection hdb2 with hdb2
          subst hdb2
          have h2 : (scannedSemanticEntries db now).foldl
              (semanticStep sqrtQ (embedOf input) threshold) none = none :=
            semanticFold_none sqrtQ (embedOf input) threshold
              (scannedSemanticEntries db now) hbelow
          rw [hfold] at h2
          cases h2

/-- C1 witness: a store whose only scanned semantic entry scores 0 against
the input (mismatched vector lengths) misses at threshold 0.85. -/
theorem C1_semantic_threshold_witness :
    (getSemanticCache id (fun _ => [1, 2])
      (some (⟨[(CacheKey.semanticK "k",
        ⟨some ⟨(5 : ℕ), 0, 604800, 0, some [1]⟩, 10⟩)], false⟩ : RedisDB ℕ))
      "q" 0.85 0).hit = false := by
  refine (C1_semantic_threshold id (fun _ => [1, 2]) _ "q" 0.85 0).2 _ rfl ?_
  have hs : scannedSemanticEntries
      (⟨[(CacheKey.semanticK "k", ⟨some ⟨(5 : ℕ), 0, 604800, 0, some [1]⟩, 10⟩)],
        false⟩ : RedisDB ℕ) 0 =
      [(CacheKey.semanticK "k", ⟨(5 : ℕ), 0, 604800, 0, some [1]⟩)] := rfl
  intro p hp emb hemb
  rw [hs, List.mem_singleton] at hp
  subst hp
  have hemb2 : some ([1] : List ℚ) = some emb := hemb
  injection hemb2 with hemb2
  subst hemb2
  norm_num [cosineSimilarity]

/-! ## Helper lemmas about the Redis model -/

/-- Writing a slot never changes the failing flag. -/
theorem dbSet_failing {T : Type} (db : RedisDB T) (k : CacheKey)
    (slot : RedisSlot T) : (dbSet db k slot).failing = db.failing := by
  unfold dbSet
  split_ifs <;> rfl

/-- After writing a slot under a key, that key reads back the slot. -/
theorem dbFind_dbSet_self {T : Type} (db : RedisDB T) (k : CacheKey)
    (slot : RedisSlot T) : dbFind (dbSet db k slot) k = some slot := by
  unfold dbFind dbSet
  by_cases h : db.entries.any (fun p => p.1 = k) = true
  · simp only [h, if_true]
    have : ∀ l : List (CacheKey × RedisSlot T), l.any (fun p => p.1 = k) = true →
        (l.map (fun p => if p.1 = k then (k, slot) else p)).find?
          (fun p => p.1 = k) = some (k, slot) := by
      intro l
      induction l with
      | nil => intro h0; simp at h0
      | cons q l ih =>
        intro h0
        by_cases hq : q.1 = k
        · simp [hq]
        · have h1 : l.any (fun p => p.1 = k) = true := by
            simpa [List.any_cons, hq] using h0
          simpa [hq] using ih h1
    rw [this db.entries h]
    rfl
  · simp only [h, if_false]
    have h1 : db.entries.find? (fun p => p.1 = k) = none := by
      rw [List.find?_eq_none]
      intro x hx
      simp only [decide_eq_true_eq]
      intro hk
      exact h (List.any_eq_true.mpr ⟨x, hx, by simp [hk]⟩)
    simp [List.find?_append, h1]

/-- When the written key namespace is absent, the write is an append. -/
theorem dbSet_append {T : Type} (db : RedisDB T) (k : CacheKey)
    (slot : RedisSlot T) (h : ∀ p ∈ db.entries, p.1 ≠ k) :
    dbSet db k slot = { db with entries := db.entries ++ [(k, slot)] } := by
  unfold dbSet
  have : db.entries.any (fun p => p.1 = k) = false := by
    simp only [List.any_eq_false, decide_eq_true_eq]
    exact h
  simp [this]

/-! ## Claim theorems: TTL renewal on read (C3) -/

/-- C3 counterexample: store an entry with ttl 10 at time 0 (expiry 10) and
read it back at time 5: the claim says the remaining time to expiry is left
unchanged, but after the read the entry's expiry is 15, not 10 — the read
renewed the TTL. -/
theorem C3_counterexample :
    ((storeCacheEntry (some (⟨[], false⟩ : RedisDB ℕ)) (CacheKey.exactK "a" "c")
        7 10 none 0).bind
      (fun db => (dbFind db (CacheKey.exactK "a" "c")).map (·.expiresAt)))
      = some 10 ∧
    ((getCacheEntry (storeCacheEntry (some (⟨[], false⟩ : RedisDB ℕ))
        (CacheKey.exactK "a" "c") 7 10 none 0) (CacheKey.exactK "a" "c") 5).2.bind
      (fun db => (dbFind db (CacheKey.exactK "a" "c")).map (·.expiresAt)))
      = some 15 ∧
    ¬ ((10 : ℤ) - 5 = 15 - 5) := by
  refine ⟨by decide, by decide, by decide⟩

/-- C3 amended: the ttl field stored in a cache entry is fixed at creation
and a read leaves it unchanged, but every hit rewrites the entry with setex
under that full original ttl, so the entry's absolute expiry is renewed to
the read time plus the full ttl (sliding expiry), not left at its previous
value. -/
theorem C3_read_renews_expiry {T : Type} (db : RedisDB T) (k : CacheKey)
    (e : CacheEntry T) (exp now : ℤ) (hf : db.failing = false)
    (hfind : dbFind db k = some ⟨some e, exp⟩) (hlive : now < exp) :
    getCacheEntry (some db) k now =
      (some { e with hits := e.hits + 1 },
        some (dbSet db k ⟨some { e with hits := e.hits + 1 }, now + e.ttl⟩)) ∧
    (dbFind (dbSet db k ⟨some { e with hits := e.hits + 1 }, now + e.ttl⟩) k).map
        (·.expiresAt) = some (now + e.ttl) ∧
    ({ e with hits := e.hits + 1 } : CacheEntry T).ttl = e.ttl := by
  refine ⟨?_, ?_, rfl⟩
  · simp [getCacheEntry, redisGet, redisSetex, hf, hfind, hlive]
  · rw [dbFind_dbSet_self]
    rfl

/-- C3 witness: a concrete store where a read at time 5 of an entry expiring
at 10 renews the expiry to 15. -/
theorem C3_read_renews_expiry_witness :
    (dbFind (dbSet (⟨[(CacheKey.exactK "a" "c", ⟨some ⟨(7 : ℕ), 0, 10, 0, none⟩, 10⟩)],
        false⟩ : RedisDB ℕ) (CacheKey.exactK "a" "c")
      ⟨some ⟨(7 : ℕ), 0, 10, 1, none⟩, 5 + 10⟩) (CacheKey.exactK "a" "c")).map
      (·.expiresAt) = some (5 + 10) :=
  (C3_read_renews_expiry
    (⟨[(CacheKey.exactK "a" "c", ⟨some ⟨(7 : ℕ), 0, 10, 0, none⟩, 10⟩)], false⟩ :
      RedisDB ℕ)
    (CacheKey.exactK "a" "c") ⟨(7 : ℕ), 0, 10, 0, none⟩ 10 5 rfl (by decide)
    (by decide)).2.1

/-! ## Claim theorems: fail-open lookups and swallowed store errors (C7) -/

/-- C7: a backing-store error yields a miss on every lookup level and is
swallowed on store: against a failing store, getCacheEntry returns null and
the store unchanged, the exact, pattern and semantic lookups all report a
miss, and storeCacheEntry returns the store unchanged; an unparseable
stored blob also reads as null; with no configured client every lookup
misses and every store is a no-op. -/
theorem C7_fail_open {T : Type} (db : RedisDB T) (k : CacheKey)
    (input ctx pat : String) (dataT : T) (ttl : ℤ) (emb : Option (List ℚ))
    (sqrtQ : ℚ → ℚ) (embedOf : String → List ℚ) (threshold : ℚ) (now : ℤ)
    (hf : db.failing = true) :
    getCacheEntry (some db) k now = (none, some db) ∧
    (getExactCache (some db) input ctx now).1 = missResult T ∧
    (getPatternCache (some db) pat ctx now).1 = missResult T ∧
    getSemanticCache sqrtQ embedOf (some db) input threshold now = missResult T ∧
    storeCacheEntry (some db) k dataT ttl emb now = some db ∧
    (∀ db2 : RedisDB T, db2.failing = false → ∀ exp : ℤ,
      dbFind db2 k = some ⟨none, exp⟩ → now < exp →
      getCacheEntry (some db2) k now = (none, some db2)) ∧
    getCacheEntry (none : Option (RedisDB T)) k now = (none, none) ∧
    storeCacheEntry (none : Option (RedisDB T)) k dataT ttl emb now = none := by
  refine ⟨?_, ?_, ?_, ?_, ?_, ?_, rfl, rfl⟩
  · simp [getCacheEntry, redisGet, hf]
  · simp [getExactCache, getCacheEntry, redisGet, hf]
  · simp [getPatternCache, getCacheEntry, redisGet, hf]
  · simp [getSemanticCache, hf]
  · simp [storeCacheEntry, redisSetex, hf]
  · intro db2 hf2 exp hfind hlive
    simp [getCacheEntry, redisGet, hf2, hfind, hlive]

/-- C7 witness: a concrete failing store misses on the exact level and a
store against it is a no-op. -/
theorem C7_fail_open_witness :
    (getExactCache (some (⟨[], true⟩ : RedisDB ℕ)) "a" "c" 0).1 = missResult ℕ ∧
    storeCacheEntry (some (⟨[], true⟩ : RedisDB ℕ)) (CacheKey.exactK "a" "c")
      7 10 none 0 = some ⟨[], true⟩ :=
  ⟨(C7_fail_open (⟨[], true⟩ : RedisDB ℕ) (CacheKey.exactK "a" "c") "a" "c" "p"
      7 10 none id (fun _ => []) 0.85 0 rfl).2.1,
    (C7_fail_open (⟨[], true⟩ : RedisDB ℕ) (CacheKey.exactK "a" "c") "a" "c" "p"
      7 10 none id (fun _ => []) 0.85 0 rfl).2.2.2.2.1⟩

/-! ## Claim theorems: store-then-lookup round trip (C5) -/

/-- C5 counterexample: the per-level TTLs are nonzero, yet storing a value
at the semantic level and immediately looking up the same input misses when
100 other semantic keys are already stored: the lookup scans only the first
100 keys, and the newly appended entry is the 101st.  The entry is present
in the store, so the store itself succeeded. -/
theorem C5_counterexample :
    TTL_SEMANTIC ≠ 0 ∧
    ((setSemanticCache (fun _ => [1]) (some (⟨(List.range 100).map (fun i =>
        (CacheKey.semanticK (toString i),
          (⟨some ⟨0, 0, 604800, 0, none⟩, 1000⟩ : RedisSlot ℕ))), false⟩ : RedisDB ℕ))
      "x" 7 0).bind
      (fun db => dbFind db (CacheKey.semanticK "x"))).isSome = true ∧
    (getSemanticCache id (fun _ => [1])
      (setSemanticCache (fun _ => [1]) (some (⟨(List.range 100).map (fun i =>
        (CacheKey.semanticK (toString i),
          (⟨some ⟨0, 0, 604800, 0, none⟩, 1000⟩ : RedisSlot ℕ))), false⟩ : RedisDB ℕ))
      "x" 7 0) "x" 0.85 0).hit = false := by
  refine ⟨by decide, by decide, by decide⟩

/-- C5 amended: with the store reachable, store-then-immediate-lookup at
the same level returns a hit carrying the stored data for the exact and
pattern levels unconditionally (their configured TTLs are positive); at the
semantic level the law holds only conditionally — here proved when the
stored entry is the sole semantic entry (so it is within the 100-key scan
window), the input's embedding has nonzero norm, the square root behaves as
a square root at that norm, and the threshold is at most 1. -/
theorem C5_round_trip {T : Type} (db : RedisDB T) (input ctx pat : String)
    (dataT : T) (now : ℤ) (sqrtQ : ℚ → ℚ) (embedOf : String → List ℚ)
    (threshold : ℚ) (hf : db.failing = false) :
    ((getExactCache (setExactCache (some db) input ctx dataT now) input ctx
        now).1.hit = true ∧
      (getExactCache (setExactCache (some db) input ctx dataT now) input ctx
        now).1.data = some dataT) ∧
    ((getPatternCache (setPatternCache (some db) pat ctx dataT now) pat ctx
        now).1.hit = true ∧
      (getPatternCache (setPatternCache (some db) pat ctx dataT now) pat ctx
        now).1.data = some dataT) ∧
    ((∀ p ∈ db.entries, isSemanticKey p.1 = false) →
      sqrtQ (normSq (embedOf input)) * sqrtQ (normSq (embedOf input))
        = normSq (embedOf input) →
      normSq (embedOf input) ≠ 0 → threshold ≤ 1 →
      getSemanticCache sqrtQ embedOf
          (setSemanticCache embedOf (some db) input dataT now) input threshold now
        = ⟨true, some dataT, some 1, some (CacheKey.semanticK input),
            .semanticSrc⟩) := by
  refine ⟨?_, ?_, ?_⟩
  · have hset : setExactCache (some db) input ctx dataT now =
        some (dbSet db (CacheKey.exactK input ctx)
          ⟨some ⟨dataT, now, TTL_EXACT_MATCH, 0, none⟩, now + TTL_EXACT_MATCH⟩) := by
      simp [setExactCache, storeCacheEntry, redisSetex, hf]
    rw [hset]
    have hff := dbSet_failing db (CacheKey.exactK input ctx)
      (⟨some ⟨dataT, now, TTL_EXACT_MATCH, 0, none⟩, now + TTL_EXACT_MATCH⟩ :
        RedisSlot T)
    have hfind := dbFind_dbSet_self db (CacheKey.exactK input ctx)
      (⟨some ⟨dataT, now, TTL_EXACT_MATCH, 0, none⟩, now + TTL_EXACT_MATCH⟩ :
        RedisSlot T)
    have hlive : now < now + TTL_EXACT_MATCH := by norm_num [TTL_EXACT_MATCH]
    constructor <;>
      simp [getExactCache, getCacheEntry, redisGet, redisSetex, hff, hf, hfind, hlive]
  · have hset : setPatternCache (some db) pat ctx dataT now =
        some (dbSet db (CacheKey.patternK pat ctx)
          ⟨some ⟨dataT, now, TTL_PATTERN, 0, none⟩, now + TTL_PATTERN⟩) := by
      simp [setPatternCache, storeCacheEntry, redisSetex, hf]
    rw [hset]
    have hff := dbSet_failing db (CacheKey.patternK pat ctx)
      (⟨some ⟨dataT, now, TTL_PATTERN, 0, none⟩, now + TTL_PATTERN⟩ : RedisSlot T)
    have hfind := dbFind_dbSet_self db (CacheKey.patternK pat ctx)
      (⟨some ⟨dataT, now, TTL_PATTERN, 0, none⟩, now + TTL_PATTERN⟩ : RedisSlot T)
    have hlive : now < now + TTL_PATTERN := by norm_num [TTL_PATTERN]
    constructor <;>
      simp [getPatternCache, getCacheEntry, redisGet, redisSetex, hff, hf, hfind, hlive]
  · intro hnosem hsq hnz hth
    have hcos : cosineSimilarity sqrtQ (embedOf input) (embedOf input) = 1 :=
      cosineSimilarity_self sqrtQ (embedOf input) hsq hnz
    have hkabs : ∀ p ∈ db.entries, p.1 ≠ CacheKey.semanticK input := by
      intro p hp hk
      have h2 := hnosem p hp
      rw [hk] at h2
      simp [isSemanticKey] at h2
    have hset : setSemanticCache embedOf (some db) input dataT now =
        some (dbSet db (CacheKey.semanticK input)
          ⟨some ⟨dataT, now, TTL_SEMANTIC, 0, some (embedOf input)⟩,
            now + TTL_SEMANTIC⟩) := by
      simp [setSemanticCache, storeCacheEntry, redisSetex, hf]
    rw [hset]
    have happ := dbSet_append db (CacheKey.semanticK input)
      (⟨some ⟨dataT, now, TTL_SEMANTIC, 0, some (embedOf input)⟩,
        now + TTL_SEMANTIC⟩ : RedisSlot T) hkabs
    have hfilter : db.entries.filter
        (fun p => isSemanticKey p.1 && decide (now < p.2.expiresAt)) = [] := by
      rw [List.filter_eq_nil_iff]
      intro p hp
      simp [hnosem p hp]
    have hlive : now < now + TTL_SEMANTIC := by norm_num [TTL_SEMANTIC]
    have hscan : scannedSemanticEntries (dbSet db (CacheKey.semanticK input)
        ⟨some ⟨dataT, now, TTL_SEMANTIC, 0, some (embedOf input)⟩,
          now + TTL_SEMANTIC⟩) now =
        [(CacheKey.semanticK input,
          ⟨dataT, now, TTL_SEMANTIC, 0, some (embedOf input)⟩)] := by
      rw [happ]
      unfold scannedSemanticEntries
      dsimp only
      rw [List.filter_append, hfilter]
      simp [isSemanticKey, hlive]
    have hff := dbSet_failing db (CacheKey.semanticK input)
      (⟨some ⟨dataT, now, TTL_SEMANTIC, 0, some (embedOf input)⟩,
        now + TTL_SEMANTIC⟩ : RedisSlot T)
    simp [getSemanticCache, hff, hf, hscan, semanticScan, semanticStep, hcos, hth]

/-- C5 witness: the semantic round trip at a concrete empty store, identity
square root and unit embedding. -/
theorem C5_round_trip_witness :
    getSemanticCache id (fun _ => [1])
        (setSemanticCache (fun _ => [1]) (some (⟨[], false⟩ : RedisDB ℕ)) "a" 7 0)
        "a" 0.85 0
      = ⟨true, some 7, some 1, some (CacheKey.semanticK "a"), .semanticSrc⟩ :=
  (C5_round_trip (⟨[], false⟩ : RedisDB ℕ) "a" "c" "p" 7 0 id (fun _ => [1])
    0.85 rfl).2.2 (by simp) (by norm_num [normSq]) (by norm_num [normSq])
    (by norm_num)

end MoralCompass
